import Mathlib

/-!
Shallow embedding of the tinychain transactional-storage and tensor core,
translated from the Rust sources:

* `src/src/collection/tensor/transform.rs` — the coordinate rebase records
  (`Broadcast`, `Expand`, `Slice`, `Transpose`).
* `src/src/state/index/collator.rs` — `Collator` (typed key comparison and
  binary search).
* `src/host/src/fs/cache.rs` — the block `Cache` and its size accounting.
* `src/host/src/fs/file.rs` — the transactional `File` (path layout and
  `create_block`).
* `src/src/state/tensor/dense/mod.rs` — the dense block layer
  (`BlockListFile::read_value_at`, `BlockListSparse::block_stream`,
  `BlockListBroadcast` write rejection).

Machine integers (`u64`, `usize`) are modelled as `Nat`; none of the verified
code paths rely on wrap-around, and `u64` subtraction (which panics on
underflow in a debug build) is modelled as truncated `Nat` subtraction with
the relevant hypotheses stated explicitly.  Rust `Result<T, TCError>` is
modelled as `Except TCErrorKind T`, keeping only the error kind.  Async and
locking structure is erased: every operation is a pure state transformer.
-/

/-- The error kinds of `TCError` (see the spec's error taxonomy and the
`error`/`tc_error` constructors used in the sources). -/
inductive TCErrorKind
  | notFound
  | badRequest
  | conflict
  | unsupported
  | internalErr
  deriving DecidableEq, Repr

/-- A logical N-D index, `Coord = Vec<u64>` in the source. -/
abbrev Coord := List Nat

/-- A tensor shape, `Shape` (a wrapper around `Vec<u64>`) in the source. -/
abbrev Shape := List Nat

/-- One axis of a `Bounds` selection: `At(i)`, `In(range)` or `Of(indices)`
(from the spec glossary; the `bounds` module itself is not under `src/`, but
`Slice::new` in `transform.rs` matches exactly these three constructors). -/
inductive AxisBounds
  | At (i : Nat)
  | In (start stop : Nat)
  | Of (indices : List Nat)
  deriving DecidableEq, Repr

/-- A per-axis selection, `Bounds` in the source. -/
abbrev Bounds := List AxisBounds

/-! ## Transpose (`transform.rs` lines 388-485) -/

/-- The `Transpose` rebase record: `source_shape`, `shape`, `permutation`. -/
structure Transpose where
  sourceShape : Shape
  shape : Shape
  permutation : List Nat
  deriving DecidableEq, Repr

/-- `Transpose::new`: a missing permutation defaults to the reversed axis
order `(ndim-1, ..., 1, 0)`; a permutation of the wrong length is rejected
with `BadRequest`; the view shape is the source shape gathered through the
permutation (`shape.push(source_shape[*axis])`, modelled with `getD`; the
Rust indexing panics for an out-of-range axis, which no verified input
exercises). -/
def Transpose.new (sourceShape : Shape) (permutation : Option (List Nat)) :
    Except TCErrorKind Transpose :=
  let ndim := sourceShape.length
  let perm := permutation.getD ((List.range ndim).reverse)
  if perm.length ≠ ndim then
    Except.error TCErrorKind.badRequest
  else
    Except.ok ⟨sourceShape, perm.map (fun axis => sourceShape.getD axis 0), perm⟩

/-- The loop shared verbatim by `Transpose::invert_coord` and
`Transpose::map_coord` in the source: start from `vec![0; coord.len()]` and
for each `axis` assign `out[permutation[axis]] = coord[axis]`. -/
def scatterByPerm (perm : List Nat) (coord : List Nat) : List Nat :=
  (List.range coord.length).foldl
    (fun acc axis => acc.set (perm.getD axis 0) (coord.getD axis 0))
    (List.replicate coord.length 0)

/-- `Transpose::invert_coord`: `source_coord[permutation[axis]] = coord[axis]`. -/
def Transpose.invertCoord (t : Transpose) (coord : List Nat) : List Nat :=
  scatterByPerm t.permutation coord

/-- `Transpose::map_coord`: `coord[permutation[axis]] = source_coord[axis]` —
textually the same scatter loop as `invert_coord`. -/
def Transpose.mapCoord (t : Transpose) (sourceCoord : List Nat) : List Nat :=
  scatterByPerm t.permutation sourceCoord

/-! ## Expand (`transform.rs` lines 109-173) -/

/-- The `Expand` rebase record. -/
structure Expand where
  sourceShape : Shape
  shape : Shape
  expand : Nat
  deriving DecidableEq, Repr

/-- `Expand::new`: rejects `expand > source_shape.len()` with `BadRequest`,
otherwise inserts a dimension of size 1 at `expand`. -/
def Expand.new (sourceShape : Shape) (expand : Nat) : Except TCErrorKind Expand :=
  if expand > sourceShape.length then
    Except.error TCErrorKind.badRequest
  else
    Except.ok ⟨sourceShape, sourceShape.insertIdx expand 1, expand⟩

/-- `Expand::invert_coord`: `inverted = coord[..expand]`, extended by
`coord[expand+1..]` when `expand < source_shape.len()`. -/
def Expand.invertCoord (e : Expand) (coord : List Nat) : List Nat :=
  coord.take e.expand ++
    (if e.expand < e.sourceShape.length then coord.drop (e.expand + 1) else [])

/-- `Expand::map_coord`: `coord.insert(expand, 0)`. -/
def Expand.mapCoord (e : Expand) (coord : List Nat) : List Nat :=
  coord.insertIdx e.expand 0

/-! ## Slice (`transform.rs` lines 240-386)

`Slice::new` stores `elided[axis] = c` for each `At(c)` axis and
`offset[axis] = range.start` for each `In(range)` axis.  Both `HashMap`s are
modelled as lookups into the bounds list, which agrees with the maps built by
`Slice::new` (they are populated only for `axis < bounds.len()`). -/

/-- The `elided` map of `Slice`: `Some c` exactly at `At(c)` axes. -/
def elidedAt (bounds : Bounds) (axis : Nat) : Option Nat :=
  match bounds[axis]? with
  | some (AxisBounds.At c) => some c
  | _ => none

/-- The `offset` map of `Slice` with the source's `unwrap_or(&0)` default:
`range.start` at `In` axes and `0` elsewhere. -/
def offsetAt (bounds : Bounds) (axis : Nat) : Nat :=
  match bounds[axis]? with
  | some (AxisBounds.In s _) => s
  | _ => 0

/-- The view shape built by `Slice::new`: per axis, `At` contributes nothing,
`In(range)` contributes `range.end - range.start`, `Of(indices)` contributes
`indices.len()`; axes beyond `bounds.len()` pass through. -/
def sliceShape (sourceShape : Shape) (bounds : Bounds) : Shape :=
  bounds.filterMap
      (fun ab =>
        match ab with
        | AxisBounds.At _ => none
        | AxisBounds.In s e => some (e - s)
        | AxisBounds.Of indices => some indices.length) ++
    sourceShape.drop bounds.length

/-- Modelled from the spec: `Shape::contains_bounds` from the missing
`bounds` module — every axis selection fits inside the source dimension. -/
def containsBounds (sourceShape : Shape) (bounds : Bounds) : Bool :=
  decide (bounds.length ≤ sourceShape.length) &&
    (List.range bounds.length).all fun axis =>
      match bounds[axis]?, sourceShape[axis]? with
      | some (AxisBounds.At c), some dim => decide (c < dim)
      | some (AxisBounds.In s e), some dim => decide (s ≤ e) && decide (e ≤ dim)
      | some (AxisBounds.Of indices), some dim => indices.all fun i => decide (i < dim)
      | _, _ => false

/-- The `Slice` rebase record (the derived `offset`/`elided` maps are
recomputed from `bounds` by `elidedAt`/`offsetAt`). -/
structure Slice where
  sourceShape : Shape
  shape : Shape
  bounds : Bounds
  deriving DecidableEq, Repr

/-- `Slice::new`: rejects bounds not contained in the source shape with
`BadRequest`, otherwise records the bounds and the derived view shape. -/
def Slice.new (sourceShape : Shape) (bounds : Bounds) : Except TCErrorKind Slice :=
  if ¬ containsBounds sourceShape bounds then
    Except.error TCErrorKind.badRequest
  else
    Except.ok ⟨sourceShape, sliceShape sourceShape bounds, bounds⟩

/-- The loop of `Slice::invert_coord`, walking source axes `axis, axis+1, ...`
(`n` axes remain): an elided axis pushes its `At` value and consumes nothing;
any other axis pushes `coord[source_axis] + offset` and consumes one entry of
the view coordinate (the source indexes with a running `source_axis`, which
is equivalent to consuming the list front-to-back; Rust's panic on an
out-of-range index is modelled by `headD 0`). -/
def sliceInvertGo (bounds : Bounds) : Nat → Nat → List Nat → List Nat
  | _, 0, _ => []
  | axis, n + 1, rest =>
    match elidedAt bounds axis with
    | some c => c :: sliceInvertGo bounds (axis + 1) n rest
    | none => (rest.headD 0 + offsetAt bounds axis) :: sliceInvertGo bounds (axis + 1) n rest.tail

/-- `Slice::invert_coord`. -/
def Slice.invertCoord (s : Slice) (coord : List Nat) : List Nat :=
  sliceInvertGo s.bounds 0 s.sourceShape.length coord

/-- The loop of `Slice::map_coord` over `source_coord.iter().enumerate()`:
skip elided axes, push `c - offset` otherwise (`u64` subtraction modelled as
truncated `Nat` subtraction). -/
def sliceMapGo (bounds : Bounds) : Nat → List Nat → List Nat
  | _, [] => []
  | axis, c :: rest =>
    match elidedAt bounds axis with
    | some _ => sliceMapGo bounds (axis + 1) rest
    | none => (c - offsetAt bounds axis) :: sliceMapGo bounds (axis + 1) rest

/-- `Slice::map_coord`. -/
def Slice.mapCoord (s : Slice) (sourceCoord : List Nat) : List Nat :=
  sliceMapGo s.bounds 0 sourceCoord

/-- The number of non-elided source axes among `axis, ..., axis+n-1`; for
`axis = 0` and `n = source ndim` this is the view's `ndim`. -/
def countNonElided (bounds : Bounds) : Nat → Nat → Nat
  | _, 0 => 0
  | axis, n + 1 =>
    (if (elidedAt bounds axis).isSome then 0 else 1) + countNonElided bounds (axis + 1) n

/-- Written from the claim: a source coordinate lies inside the slice region
described by `bounds` — it equals the `At` value on elided axes, is at least
`range.start` and below `range.end` on `In` axes, and is one of the
enumerated indices on `Of` axes.  Axes beyond `bounds.len()` are
unconstrained here (the source-shape range check is separate). -/
def withinBounds (bounds : Bounds) : Nat → List Nat → Bool
  | _, [] => true
  | axis, c :: rest =>
    (match bounds[axis]? with
      | some (AxisBounds.At v) => decide (c = v)
      | some (AxisBounds.In s e) => decide (s ≤ c) && decide (c < e)
      | some (AxisBounds.Of indices) => decide (c ∈ indices)
      | none => true) &&
      withinBounds bounds (axis + 1) rest

/-! ## Collator (`src/src/state/index/collator.rs`) -/

/-- Modelled from the spec: the `TCType` enum is declared in the missing
`crate::class` module; the variants are the two the collator's `match`
names (`Int32`, `UInt64`) plus representatives of the spec's other column
types ("ordered integer types and strings"): a string type and a float
type, both of which fall into the collator's wildcard arm. -/
inductive TCType
  | int32
  | uint64
  | stringT
  | float64
  deriving DecidableEq, Repr

/-- Modelled from the spec: a key component `Value`, restricted to the
payloads `Collator::compare` extracts with `try_into().unwrap()` —
an `i32`, a `u64`, or a string. -/
inductive TCValue
  | int32 (i : Int)
  | uint64 (n : Nat)
  | str (s : String)
  deriving DecidableEq, Repr

/-- The `i32` payload read by `Collator::compare` (`try_into().unwrap()`
panics on a type mismatch; the junk default is never hit on inputs whose
column types match the schema). -/
def TCValue.asInt32 : TCValue → Int
  | TCValue.int32 i => i
  | _ => 0

/-- The `u64` payload read by `Collator::compare`. -/
def TCValue.asUInt64 : TCValue → Nat
  | TCValue.uint64 n => n
  | _ => 0

/-- The collator over a column schema. -/
structure Collator where
  schema : List TCType
  deriving DecidableEq, Repr

/-- `Collator::supports`: `Int32` and `UInt64` only; every other type falls
into the wildcard arm and is unsupported. -/
def Collator.supports : TCType → Bool
  | TCType.int32 => true
  | TCType.uint64 => true
  | _ => false

/-- `Collator::new`: rejects the first unsupported column type with
`BadRequest`; accepts the schema if every column type is supported. -/
def Collator.new (schema : List TCType) : Except TCErrorKind Collator :=
  if schema.all Collator.supports then
    Except.ok ⟨schema⟩
  else
    Except.error TCErrorKind.badRequest

/-- `Collator::compare`: the source's loop body ends in an unconditional
`return`, so only column 0 is ever compared; when either key is empty the
trailing emptiness checks decide the order.  The wildcard arm of the source
panics; it is modelled as `Ordering.eq` and never reached for a schema that
passed `Collator::new`. -/
def Collator.compare (c : Collator) (key1 key2 : List TCValue) : Ordering :=
  match key1, key2 with
  | [], [] => Ordering.eq
  | [], _ :: _ => Ordering.lt
  | _ :: _, [] => Ordering.gt
  | v1 :: _, v2 :: _ =>
    match c.schema.head? with
    | some TCType.int32 => Ord.compare v1.asInt32 v2.asInt32
    | some TCType.uint64 => Ord.compare v1.asUInt64 v2.asUInt64
    | _ => Ordering.eq

/-- The `while start < end` loop of `Collator::bisect`, fuelled: `none`
models non-termination or the source's explicit panic
(`"Tried to collate a non-sorted Vec!"`); otherwise returns `end`. -/
def Collator.bisectLoop (c : Collator) (keys : List (List TCValue)) (key : List TCValue) :
    Nat → Nat → Nat → Option Nat
  | 0, _, _ => none
  | fuel + 1, start, stop =>
    if start < stop then
      let mid := (start + stop) / 2
      match c.compare (keys.getD mid []) key with
      | Ordering.lt => Collator.bisectLoop c keys key fuel mid stop
      | Ordering.gt => Collator.bisectLoop c keys key fuel start mid
      | Ordering.eq =>
        if mid = keys.length - 1 then
          Collator.bisectLoop c keys key fuel start mid
        else
          match c.compare (keys.getD (mid + 1) []) key with
          | Ordering.gt => Collator.bisectLoop c keys key fuel start mid
          | Ordering.eq => Collator.bisectLoop c keys key fuel (mid + 1) stop
          | Ordering.lt => none
    else
      some stop

/-- `Collator::bisect`: empty input returns 0; then the two boundary guards
(`start_relation == Less → 0`; `end_relation ∈ {Greater, Equal} → len`);
otherwise the loop over `start = 0, end = len - 1`.  The fuel bounds the
loop at one step per element plus slack, which is ample for every
terminating run of this binary search. -/
def Collator.bisect (c : Collator) (keys : List (List TCValue)) (key : List TCValue) :
    Option Nat :=
  if keys.isEmpty then
    some 0
  else
    let startRel := c.compare (keys.getD 0 []) key
    let endRel := c.compare (keys.getD (keys.length - 1) []) key
    if startRel = Ordering.lt then
      some 0
    else if endRel = Ordering.gt ∨ endRel = Ordering.eq then
      some keys.length
    else
      Collator.bisectLoop c keys key (keys.length + 2) 0 (keys.length - 1)

/-- The `while start < end` loop of `Collator::bisect_left`, fuelled;
`Equal` at `mid = 0` returns 0 immediately; the final result is `start`. -/
def Collator.bisectLeftLoop (c : Collator) (keys : List (List TCValue)) (key : List TCValue) :
    Nat → Nat → Nat → Option Nat
  | 0, _, _ => none
  | fuel + 1, start, stop =>
    if start < stop then
      let mid := (start + stop) / 2
      match c.compare (keys.getD mid []) key with
      | Ordering.lt => Collator.bisectLeftLoop c keys key fuel mid stop
      | Ordering.gt => Collator.bisectLeftLoop c keys key fuel start mid
      | Ordering.eq =>
        if mid = 0 then
          some 0
        else
          match c.compare (keys.getD (mid - 1) []) key with
          | Ordering.eq => Collator.bisectLeftLoop c keys key fuel start (mid - 1)
          | Ordering.lt => Collator.bisectLeftLoop c keys key fuel mid stop
          | Ordering.gt => none
    else
      some start

/-- `Collator::bisect_left`: empty input returns 0; boundary guards
(`start_relation ∈ {Greater, Equal} → 0`; `end_relation == Less → len`);
otherwise the loop over `start = 0, end = len - 1`. -/
def Collator.bisectLeft (c : Collator) (keys : List (List TCValue)) (key : List TCValue) :
    Option Nat :=
  if keys.isEmpty then
    some 0
  else
    let startRel := c.compare (keys.getD 0 []) key
    let endRel := c.compare (keys.getD (keys.length - 1) []) key
    if startRel = Ordering.gt ∨ startRel = Ordering.eq then
      some 0
    else if endRel = Ordering.lt then
      some keys.length
    else
      Collator.bisectLeftLoop c keys key (keys.length + 2) 0 (keys.length - 1)

/-! ## Filesystem paths of a transactional file (`src/host/src/fs/file.rs`) -/

/-- A filesystem path, modelled as its list of components. -/
abbrev FsPath := List String

/-- Modelled from the spec: the `VERSION` constant of the missing
`fs::dir` module — the name of the version directory, `".versions"`. -/
def VERSION : String := ".versions"

/-- `canonical(file_path, block_id)`: the canonical block file
`{file_path}/{block_id}`. -/
def canonical (filePath : FsPath) (blockId : String) : FsPath :=
  filePath ++ [blockId]

/-- `version_path(file_path, txn_id)`: starts from
`file_path.parent().unwrap()` — the parent directory of the file — then
pushes `VERSION` and the transaction id. -/
def versionPath (filePath : FsPath) (txnId : String) : FsPath :=
  filePath.dropLast ++ [VERSION, txnId]

/-- `block_path(file_path, txn_id, block_id)`: the per-transaction block
version `{version_path}/{block_id}`. -/
def blockPath (filePath : FsPath) (txnId : String) (blockId : String) : FsPath :=
  versionPath filePath txnId ++ [blockId]

/-! ## Cache (`src/host/src/fs/cache.rs`)

The cache state keeps the accounted `size`, the construction parameter
`max_size`, and the entry map `path -> block`, modelled as an association
list (a `HashMap` in the source; each mutation keeps at most one entry per
path).  A block type `B` comes with `byteSize`, the length of
`into_bytes(b)`.  The LFU rank sequence only orders candidates for the
unimplemented eviction and plays no part in accounting, so it is not
modelled. -/

structure CacheState (B : Type) where
  size : Nat
  maxSize : Nat
  entries : List (FsPath × B)
  deriving DecidableEq, Repr

/-- `Cache::new(max_size)`. -/
def Cache.new (B : Type) (maxSize : Nat) : CacheState B :=
  ⟨0, maxSize, []⟩

/-- Entry lookup (`inner.entries.get(path)`). -/
def Cache.lookup (c : CacheState B) (path : FsPath) : Option B :=
  (c.entries.find? fun e => decide (e.1 = path)).map Prod.snd

/-- Entry removal (`inner.entries.remove(&path)` — the map holds at most one
entry per path). -/
def Cache.eraseEntry (entries : List (FsPath × B)) (path : FsPath) : List (FsPath × B) :=
  entries.filter fun e => decide (e.1 ≠ path)

/-- `Cache::write(path, block)`: compute the new block's byte size; if an
entry exists, remove it and subtract its size from the accounting *only
when* `old_size > inner.size` (the source's guard, which fires exactly when
the `u64` subtraction would underflow); insert the new entry; add the new
size.  Over-budget state only logs a warning ("eviction is not yet
implemented") and changes nothing. -/
def Cache.write (byteSize : B → Nat) (c : CacheState B) (path : FsPath) (block : B) :
    CacheState B :=
  let sz := byteSize block
  let (entries1, size1) :=
    match Cache.lookup c path with
    | some old =>
      (Cache.eraseEntry c.entries path,
        if byteSize old > c.size then c.size - byteSize old else c.size)
    | none => (c.entries, c.size)
  { c with entries := (path, block) :: entries1, size := size1 + sz }

/-- `Cache::remove(path)`: drop the entry; subtract its size only when
`inner.size > old_size` (the source's guard). -/
def Cache.remove (byteSize : B → Nat) (c : CacheState B) (path : FsPath) : CacheState B :=
  match Cache.lookup c path with
  | some old =>
    { c with
      entries := Cache.eraseEntry c.entries path
      size := if c.size > byteSize old then c.size - byteSize old else c.size }
  | none => c

/-- `Cache::read(path)`: a hit leaves the state unchanged (only the LFU rank
is bumped); a miss reads and decodes the file at `path` (modelled by the
`fs` oracle), inserting it and adding its size; a missing file changes
nothing and returns `None`. -/
def Cache.read (byteSize : B → Nat) (c : CacheState B) (path : FsPath)
    (fs : FsPath → Option B) : CacheState B :=
  match Cache.lookup c path with
  | some _ => c
  | none =>
    match fs path with
    | some block => { c with entries := (path, block) :: c.entries, size := c.size + byteSize block }
    | none => c

/-- The total byte size of the entries present, `Σ size(entries)`. -/
def Cache.totalSize (byteSize : B → Nat) (c : CacheState B) : Nat :=
  (c.entries.map fun e => byteSize e.2).sum

/-! ## Transactional file `create_block` (`src/host/src/fs/file.rs` 128-146) -/

/-- The per-transaction state of a `File<B>` visible to `create_block`:
its path, the `listing` and `mutated` block-id sets (each guarded by a
`TxnLock` in the source; lock acquisition is erased), and the cache entries
this file wrote, keyed by filesystem path. -/
structure TxnFileState (B : Type) where
  path : FsPath
  listing : List String
  mutated : List String
  cache : List (FsPath × B)
  deriving DecidableEq, Repr

/-- `HashSet::insert`. -/
def insertName (l : List String) (n : String) : List String :=
  if n ∈ l then l else n :: l

/-- Cache insertion as performed through `Cache::write` (replace any entry at
the same path). -/
def cacheInsert (entries : List (FsPath × B)) (p : FsPath) (v : B) : List (FsPath × B) :=
  (p, v) :: entries.filter fun e => decide (e.1 ≠ p)

/-- `File::create_block(txn_id, name, initial_value)`: computes the txn
version path, writes the value into the cache there, and inserts `name`
into both `listing` and `mutated`.  The source contains no membership check
of the listing and no `Conflict` path. -/
def createBlock (f : TxnFileState B) (txnId : String) (name : String) (value : B) :
    Except TCErrorKind (TxnFileState B) :=
  let p := blockPath f.path txnId name
  Except.ok
    { f with
      cache := cacheInsert f.cache p value
      listing := insertName f.listing name
      mutated := insertName f.mutated name }

/-! ## Dense block layer (`src/src/state/tensor/dense/mod.rs`) -/

/-- `PER_BLOCK = 131_072` values per dense block. -/
def PER_BLOCK : Nat := 131072

/-- The `coord_bounds` precomputed by `BlockListFile::from_blocks` (and, as
`coord_index`, by `BlockListSparse::new`):
`coord_bounds[axis] = shape[axis+1..].product()`. -/
def coordBounds (shape : Shape) : List Nat :=
  (List.range shape.length).map fun axis => (shape.drop (axis + 1)).prod

/-- Modelled from the spec: `Shape::contains_coord` from the missing
`bounds` module — the coordinate has length `ndim` and each component is
below the corresponding dimension. -/
def containsCoord (shape : Shape) (coord : Coord) : Bool :=
  decide (coord.length = shape.length) &&
    (List.zip coord shape).all fun p => decide (p.1 < p.2)

/-- The flattened row-major offset computed by `read_value_at` /
`write_value_at`: `coord_bounds.iter().zip(coord).map(|(d, x)| d * x).sum()`. -/
def offsetOf (shape : Shape) (coord : Coord) : Nat :=
  (((coordBounds shape).zip coord).map fun p => p.1 * p.2).sum

/-- `BlockListFile::read_value_at`: reject an out-of-range coordinate with
`BadRequest`; otherwise fetch block `offset / PER_BLOCK` and return its
value at index `offset % PER_BLOCK` (`get_value` returning `None` becomes
the `Internal` "corrupt" error).  The file's committed blocks are modelled
as the map `blocks : block_id -> values`. -/
def readValueAt (blocks : Nat → List B) (shape : Shape) (coord : Coord) :
    Except TCErrorKind B :=
  if ¬ containsCoord shape coord then
    Except.error TCErrorKind.badRequest
  else
    let offset := offsetOf shape coord
    match (blocks (offset / PER_BLOCK)).get? (offset % PER_BLOCK) with
    | some v => Except.ok v
    | none => Except.error TCErrorKind.internalErr

/-- Rust's `(start..stop).step_by(step)`. -/
def stepRange (start stop step : Nat) : List Nat :=
  (List.range ((stop - start + step - 1) / step)).map fun i => start + i * step

/-- The block offsets enumerated by `BlockListSparse::block_stream`:
`((PER_BLOCK as u64)..self.size()).step_by(PER_BLOCK)`. -/
def sparseBlockOffsets (size : Nat) : List Nat :=
  stepRange PER_BLOCK size PER_BLOCK

/-- The `(start, end)` offset ranges those block offsets are mapped to:
`(offset - PER_BLOCK, offset)`. -/
def sparseBlockRanges (size : Nat) : List (Nat × Nat) :=
  (sparseBlockOffsets size).map fun o => (o - PER_BLOCK, o)

/-- The conversion of a flattened offset to per-axis coordinates used for
the `filled_range` query: `(offset / coord_index[axis]) % shape[axis]`. -/
def offsetToCoord (shape : Shape) (offset : Nat) : Coord :=
  ((coordBounds shape).zip shape).map fun p => (offset / p.1) % p.2

/-- `BlockListSparse::block_stream`: one block per enumerated offset range,
each built from the sparse rows of that range.  The per-range block builder
(`source.filled_range(start, end)` followed by the arrayfire scatter into a
zero block) depends on the `SparseTensor` implementation, which is not under
`src/`, so it is kept abstract as `blockFor`; which ranges are enumerated —
the content of the verified claim — is translated exactly. -/
def sparseBlockStream (shape : Shape) (blockFor : Coord → Coord → List B) : List (List B) :=
  (sparseBlockRanges shape.prod).map fun r =>
    blockFor (offsetToCoord shape r.1) (offsetToCoord shape r.2)

/-! ## Broadcast view writes (`dense/mod.rs` lines 380-463) -/

/-- `BlockListBroadcast`: the broadcast view over a source block list
(the source state is abstract — writes never reach it). -/
structure BlockListBroadcast (S : Type) where
  source : S
  sourceShape : Shape
  shape : Shape
  deriving DecidableEq, Repr

/-- `BlockListBroadcast::write_value`: immediately returns the
`Unsupported` error `ERR_BROADCAST_WRITE` without touching the source. -/
def BlockListBroadcast.writeValue (b : BlockListBroadcast S) (_txnId : Nat)
    (_bounds : Bounds) (_number : Int) :
    Except TCErrorKind Unit × BlockListBroadcast S :=
  (Except.error TCErrorKind.unsupported, b)

/-- `BlockListBroadcast::write_value_at`: immediately returns the
`Unsupported` error `ERR_BROADCAST_WRITE` without touching the source. -/
def BlockListBroadcast.writeValueAt (b : BlockListBroadcast S) (_txnId : Nat)
    (_coord : Coord) (_value : Int) :
    Except TCErrorKind Unit × BlockListBroadcast S :=
  (Except.error TCErrorKind.unsupported, b)

/-! ## Theorems -/

/-- Gathering a list through the full index range is the identity. -/
theorem rangeMap_getD (l : List Nat) :
    (List.range l.length).map (fun a => l.getD a 0) = l := by
  induction l with
  | nil => rfl
  | cons x xs ih =>
    rw [List.length_cons, List.range_succ_eq_map, List.map_cons, List.map_map]
    have h2 : ((fun a => (x :: xs).getD a 0) ∘ Nat.succ) = fun a => xs.getD a 0 := by
      funext a
      simp [List.getD_cons_succ]
    rw [h2, ih]
    simp [List.getD_cons_zero]

/-- Unfolding of `coord_bounds` at a cons: the head bound is the product of
the remaining dimensions. -/
theorem coordBounds_cons (d : Nat) (ds : List Nat) :
    coordBounds (d :: ds) = ds.prod :: coordBounds ds := by
  unfold coordBounds
  rw [List.length_cons, List.range_succ_eq_map, List.map_cons, List.map_map]
  rfl

/-- The source's zip-with-`coord_bounds` offset sum equals the spec formula
`Σ_k coord[k] · Π_{j>k} d_j` when the coordinate has full length. -/
theorem offsetOf_eq_spec_sum (coord shape : List Nat) (h : coord.length = shape.length) :
    offsetOf shape coord =
      ((List.range coord.length).map fun k => coord.getD k 0 * (shape.drop (k + 1)).prod).sum := by
  induction coord generalizing shape with
  | nil => simp [offsetOf]
  | cons c cs ih =>
    cases shape with
    | nil => simp at h
    | cons d ds =>
      have hlen : cs.length = ds.length := by simpa using h
      rw [List.length_cons, List.range_succ_eq_map, List.map_cons, List.map_map]
      have hhead : (c :: cs).getD 0 0 * ((d :: ds).drop 1).prod = c * ds.prod := by
        simp [List.getD_cons_zero]
      have htail :
          ((fun k => (c :: cs).getD k 0 * ((d :: ds).drop (k + 1)).prod) ∘ Nat.succ) =
            fun k => cs.getD k 0 * (ds.drop (k + 1)).prod := by
        funext k
        simp [List.getD_cons_succ]
      rw [hhead, htail, List.sum_cons, ← ih ds hlen]
      unfold offsetOf
      rw [coordBounds_cons]
      simp [List.zip_cons_cons, Nat.mul_comm]

/-- `Slice::map_coord` after `Slice::invert_coord` recovers the prefix of the
view coordinate of length `countNonElided` (one entry per non-elided source
axis). -/
theorem sliceMapGo_sliceInvertGo (bounds : Bounds) (n : Nat) :
    ∀ (axis : Nat) (y : List Nat), countNonElided bounds axis n ≤ y.length →
      sliceMapGo bounds axis (sliceInvertGo bounds axis n y) =
        y.take (countNonElided bounds axis n) := by
  induction n with
  | zero =>
    intro axis y _
    simp [sliceInvertGo, sliceMapGo, countNonElided]
  | succ m ih =>
    intro axis y hy
    cases he : elidedAt bounds axis with
    | some c =>
      have hc : countNonElided bounds axis (m + 1) = countNonElided bounds (axis + 1) m := by
        simp [countNonElided, he]
      rw [sliceInvertGo, he, sliceMapGo, he, hc]
      exact ih (axis + 1) y (hc ▸ hy)
    | none =>
      have hc : countNonElided bounds axis (m + 1) = countNonElided bounds (axis + 1) m + 1 := by
        simp [countNonElided, he, Nat.add_comm]
      rw [hc] at hy
      cases y with
      | nil => simp at hy
      | cons y0 ys =>
        have hys : countNonElided bounds (axis + 1) m ≤ ys.length := by
          simpa using hy
        rw [sliceInvertGo, he, sliceMapGo, he, hc]
        simp only [List.headD_cons, List.tail_cons, List.take_succ_cons, Nat.add_sub_cancel]
        exact congrArg (y0 :: ·) (ih (axis + 1) ys hys)

/-- The round trip `map_coord ∘ invert_coord` on a `Slice` is the identity on
view coordinates of the view's length (the number of non-elided source
axes). -/
theorem slice_mapCoord_invertCoord (s : Slice) (y : List Nat)
    (hy : y.length = countNonElided s.bounds 0 s.sourceShape.length) :
    s.mapCoord (s.invertCoord y) = y := by
  unfold Slice.mapCoord Slice.invertCoord
  rw [sliceMapGo_sliceInvertGo s.bounds s.sourceShape.length 0 y (le_of_eq hy.symm), ← hy,
    List.take_length]

/-- `Slice::invert_coord` after `Slice::map_coord` recovers any source
coordinate lying inside the slice region. -/
theorem sliceInvertGo_sliceMapGo (bounds : Bounds) :
    ∀ (x : List Nat) (axis : Nat), withinBounds bounds axis x = true →
      sliceInvertGo bounds axis x.length (sliceMapGo bounds axis x) = x := by
  intro x
  induction x with
  | nil =>
    intro axis _
    rfl
  | cons c rest ih =>
    intro axis hx
    rw [withinBounds, Bool.and_eq_true] at hx
    obtain ⟨hhead, htail⟩ := hx
    cases hb : bounds[axis]? with
    | some ab =>
      cases ab with
      | At v =>
        have he : elidedAt bounds axis = some v := by simp [elidedAt, hb]
        have hcv : c = v := by
          rw [hb] at hhead
          exact of_decide_eq_true hhead
        rw [List.length_cons, sliceMapGo, he, sliceInvertGo, he, ih (axis + 1) htail, hcv]
      | In s e =>
        have he : elidedAt bounds axis = none := by simp [elidedAt, hb]
        have ho : offsetAt bounds axis = s := by simp [offsetAt, hb]
        have hsc : s ≤ c := by
          rw [hb, Bool.and_eq_true] at hhead
          exact of_decide_eq_true hhead.1
        rw [List.length_cons, sliceMapGo, he, sliceInvertGo, he, ho]
        simp only [List.headD_cons, List.tail_cons]
        rw [Nat.sub_add_cancel hsc, ih (axis + 1) htail]
      | Of indices =>
        have he : elidedAt bounds axis = none := by simp [elidedAt, hb]
        have ho : offsetAt bounds axis = 0 := by simp [offsetAt, hb]
        rw [List.length_cons, sliceMapGo, he, sliceInvertGo, he, ho]
        simp only [List.headD_cons, List.tail_cons, Nat.sub_zero, Nat.add_zero]
        rw [ih (axis + 1) htail]
    | none =>
      have he : elidedAt bounds axis = none := by simp [elidedAt, hb]
      have ho : offsetAt bounds axis = 0 := by simp [offsetAt, hb]
      rw [List.length_cons, sliceMapGo, he, sliceInvertGo, he, ho]
      simp only [List.headD_cons, List.tail_cons, Nat.sub_zero, Nat.add_zero]
      rw [ih (axis + 1) htail]

/-- The round trip `invert_coord ∘ map_coord` on a `Slice` is the identity on
source coordinates of full length that lie inside the slice region. -/
theorem slice_invertCoord_mapCoord (s : Slice) (x : List Nat)
    (hx : withinBounds s.bounds 0 x = true) (hlen : x.length = s.sourceShape.length) :
    s.invertCoord (s.mapCoord x) = x := by
  unfold Slice.mapCoord Slice.invertCoord
  rw [← hlen]
  exact sliceInvertGo_sliceMapGo s.bounds x 0 hx

/-- Re-inserting a zero at a deleted position recovers a list whose entry at
that position was zero. -/
theorem insertIdx_take_drop (y : List Nat) :
    ∀ (k : Nat), k < y.length → y.getD k 0 = 0 →
      (y.take k ++ y.drop (k + 1)).insertIdx k 0 = y := by
  induction y with
  | nil =>
    intro k hk _
    simp at hk
  | cons a ys ih =>
    intro k hk h0
    cases k with
    | zero =>
      have ha : a = 0 := by simpa [List.getD_cons_zero] using h0
      simp [List.insertIdx, ha]
    | succ m =>
      have hm : m < ys.length := by simpa using hk
      have h0' : ys.getD m 0 = 0 := by simpa [List.getD_cons_succ] using h0
      simp only [List.take_succ_cons, List.drop_succ_cons, List.cons_append,
        List.insertIdx_succ_cons]
      exact congrArg (a :: ·) (ih m hm h0')

/-- The round trip `invert_coord ∘ map_coord` on an `Expand` is the identity
on source coordinates of full length. -/
theorem expand_invertCoord_mapCoord (e : Expand) (x : List Nat)
    (hlen : x.length = e.sourceShape.length) (hk : e.expand ≤ e.sourceShape.length) :
    e.invertCoord (e.mapCoord x) = x := by
  unfold Expand.invertCoord Expand.mapCoord
  by_cases hlt : e.expand < e.sourceShape.length
  · rw [if_pos hlt, ← List.eraseIdx_eq_take_drop_succ, List.eraseIdx_insertIdx]
  · have hke : e.expand = x.length := by omega
    rw [if_neg hlt, List.append_nil, hke, List.insertIdx_length_self, List.take_left]

/-- The round trip `map_coord ∘ invert_coord` on an `Expand` is the identity
on view coordinates of full length whose entry at the expanded axis is 0 —
which every in-range view coordinate satisfies, the expanded dimension
being 1. -/
theorem expand_mapCoord_invertCoord (e : Expand) (y : List Nat)
    (hlen : y.length = e.sourceShape.length + 1) (hk : e.expand ≤ e.sourceShape.length)
    (h0 : y.getD e.expand 0 = 0) :
    e.mapCoord (e.invertCoord y) = y := by
  unfold Expand.mapCoord Expand.invertCoord
  have hky : e.expand < y.length := by omega
  have hstep :
      (y.take e.expand ++ if e.expand < e.sourceShape.length then y.drop (e.expand + 1) else []) =
        y.take e.expand ++ y.drop (e.expand + 1) := by
    by_cases hlt : e.expand < e.sourceShape.length
    · rw [if_pos hlt]
    · rw [if_neg hlt, List.drop_eq_nil_of_le (by omega)]
  rw [hstep]
  exact insertIdx_take_drop y e.expand hky h0

/-- C1: the claimed bijection law fails for `Transpose`.  For the transpose
of shape `[2,3,5]` under the permutation `[2,0,1]` (view shape `[5,2,3]`),
the in-range view coordinate `[1,0,0]` satisfies
`map_coord(invert_coord([1,0,0])) = [0,1,0] ≠ [1,0,0]`: `map_coord` performs
the same scatter as `invert_coord` instead of its inverse, so the round trip
applies the inverse permutation twice and is not the identity unless the
permutation is an involution.  (The law does hold for `Slice` and `Expand`:
see `slice_mapCoord_invertCoord`, `slice_invertCoord_mapCoord`,
`expand_invertCoord_mapCoord` and `expand_mapCoord_invertCoord`.) -/
theorem transpose_roundtrip_fails :
    Transpose.new [2, 3, 5] (some [2, 0, 1]) =
      Except.ok ⟨[2, 3, 5], [5, 2, 3], [2, 0, 1]⟩ ∧
    containsCoord [5, 2, 3] [1, 0, 0] = true ∧
    Transpose.mapCoord ⟨[2, 3, 5], [5, 2, 3], [2, 0, 1]⟩
        (Transpose.invertCoord ⟨[2, 3, 5], [5, 2, 3], [2, 0, 1]⟩ [1, 0, 0]) = [0, 1, 0] ∧
    ([0, 1, 0] : List Nat) ≠ [1, 0, 0] := by
  refine ⟨rfl, by decide, by decide, by decide⟩

/-- C2 counterexample: for the file at `P = data/myfile`, the txn version of
block `b` is stored at `data/.versions/t1/b` — under the *parent* of `P`
(`version_path` starts from `file_path.parent()`), not under `P` itself as
the claim states. -/
theorem blockPath_not_under_file_path :
    blockPath ["data", "myfile"] "t1" "b" = ["data", VERSION, "t1", "b"] ∧
    blockPath ["data", "myfile"] "t1" "b" ≠ ["data", "myfile", VERSION, "t1", "b"] := by
  refine ⟨rfl, by decide⟩

/-- C2 (amended): the canonical block named `name` lives at `P/name`, and
the per-txn version lives at `parent(P)/.versions/{txn_id}/{name}` — the
`.versions` directory is a sibling of `P`, a child of `P`'s parent. -/
theorem file_path_layout (p : FsPath) (txnId blockId : String) :
    canonical p blockId = p ++ [blockId] ∧
    blockPath p txnId blockId = p.dropLast ++ [VERSION, txnId, blockId] :=
  ⟨rfl, by simp [blockPath, versionPath]⟩

/-- C3: cache accounting breaks.  Writing a 4-byte block twice at the same
path leaves one 4-byte entry but an accounted size of 8: on replacement the
source only subtracts the old size when `old_size > inner.size` (i.e. when
the subtraction would underflow), so the usual case never decrements.
Moreover eviction is unimplemented: three 6-byte writes under
`max_size = 10` leave an accounted size of 18 > 10 + 6, violating the
claimed budget bound. -/
theorem cache_accounting_fails :
    (Cache.totalSize (fun n => n)
        (Cache.write (fun n => n) (Cache.write (fun n => n) (Cache.new Nat 10) ["p"] 4) ["p"] 4) = 4) ∧
    (Cache.write (fun n => n) (Cache.write (fun n => n) (Cache.new Nat 10) ["p"] 4) ["p"] 4).size = 8 ∧
    (Cache.write (fun n => n) (Cache.write (fun n => n)
        (Cache.write (fun n => n) (Cache.new Nat 10) ["a"] 6) ["b"] 6) ["c"] 6).size = 18 ∧
    Cache.totalSize (fun n => n) (Cache.write (fun n => n) (Cache.write (fun n => n)
        (Cache.write (fun n => n) (Cache.new Nat 10) ["a"] 6) ["b"] 6) ["c"] 6) = 18 ∧
    (Cache.write (fun n => n) (Cache.write (fun n => n)
        (Cache.write (fun n => n) (Cache.new Nat 10) ["a"] 6) ["b"] 6) ["c"] 6).maxSize + 6 < 18 := by
  refine ⟨by decide, by decide, by decide, by decide, by decide⟩

/-- C4 counterexample: with the block id `x` already in the listing,
`create_block` still succeeds — it never returns `Conflict`. -/
theorem createBlock_ignores_duplicates :
    ("x" ∈ (["x"] : List String)) ∧
    createBlock (B := Nat) ⟨["dir", "f"], ["x"], [], []⟩ "t" "x" 7 ≠
      Except.error TCErrorKind.conflict := by
  refine ⟨by decide, fun h => Except.noConfusion h⟩

/-- C4 (amended): `create_block(txn, id, value)` unconditionally writes the
value into the cache at the txn version path and inserts `id` into both
`listing` and `mutated`, whether or not the listing already contains `id`;
no `Conflict` error is produced (an existing cached block at that path is
silently replaced). -/
theorem createBlock_always_inserts {B : Type} (f : TxnFileState B)
    (txnId name : String) (value : B) :
    createBlock f txnId name value =
      Except.ok
        { f with
          cache := cacheInsert f.cache (blockPath f.path txnId name) value
          listing := insertName f.listing name
          mutated := insertName f.mutated name } :=
  rfl

/-- C5: the dense view of a sparse tensor does not cover the flattened
sequence.  `block_stream` enumerates block end-offsets from
`PER_BLOCK..size`, so a tensor of shape `[2]` (size 2 ≤ PER_BLOCK) yields
*no* blocks at all — whatever coordinates are filled — and a size of
`PER_BLOCK + 5` yields only the single full block `[0, PER_BLOCK)`,
omitting the short trailing block `[PER_BLOCK, PER_BLOCK + 5)`. -/
theorem sparse_block_stream_misses_blocks :
    (∀ blockFor : Coord → Coord → List Int, sparseBlockStream [2] blockFor = []) ∧
    sparseBlockRanges (PER_BLOCK + 5) = [(0, PER_BLOCK)] ∧
    (0 : Nat) < ([2] : Shape).prod := by
  refine ⟨fun blockFor => rfl, by decide, by decide⟩

/-- C9: every write through a `Broadcast` view is rejected with
`Unsupported` and leaves the source state untouched, for every transaction
id, bounds, coordinate and value. -/
theorem broadcast_writes_rejected {S : Type} (b : BlockListBroadcast S) (txnId : Nat)
    (bounds : Bounds) (value : Int) (coord : Coord) :
    BlockListBroadcast.writeValue b txnId bounds value =
      (Except.error TCErrorKind.unsupported, b) ∧
    BlockListBroadcast.writeValueAt b txnId coord value =
      (Except.error TCErrorKind.unsupported, b) :=
  ⟨rfl, rfl⟩

/-- C6: the binary searches do not implement the claimed semantics.  Over
the single-`Int32` schema and the sorted keys `[[1], [2], [3]]`, searching
for `[2]` with `bisect` returns 0 — the guard returns 0 whenever
`keys[0] < key` — while the first position strictly greater than the key is
2.  And over the sorted keys `[[1], [3]]`, `bisect_left`'s loop never
terminates on the key `[2]` (from `start = 0, end = 1` it recurses to the
same state for every amount of fuel), while the claim requires the answer
1. -/
theorem bisect_guards_inverted :
    Collator.compare ⟨[TCType.int32]⟩ [TCValue.int32 1] [TCValue.int32 2] = Ordering.lt ∧
    Collator.compare ⟨[TCType.int32]⟩ [TCValue.int32 2] [TCValue.int32 3] = Ordering.lt ∧
    Collator.bisect ⟨[TCType.int32]⟩
      [[TCValue.int32 1], [TCValue.int32 2], [TCValue.int32 3]] [TCValue.int32 2] = some 0 ∧
    (∀ fuel : Nat,
      Collator.bisectLeftLoop ⟨[TCType.int32]⟩
        [[TCValue.int32 1], [TCValue.int32 3]] [TCValue.int32 2] fuel 0 1 = none) := by
  refine ⟨rfl, rfl, rfl, ?_⟩
  intro fuel
  induction fuel with
  | zero => rfl
  | succ n ih => exact ih

/-- C7: for every in-range coordinate, `read_value_at` returns the value of
block `offset / PER_BLOCK` at in-block index `offset mod PER_BLOCK`, where
`offset = Σ_k coord[k] · Π_{j>k} d_j` and `PER_BLOCK = 131072` (a missing
in-block index is the `Internal` corruption error). -/
theorem readValueAt_block_decomposition (blocks : Nat → List Int) (shape : Shape)
    (coord : Coord) (h : containsCoord shape coord = true) :
    PER_BLOCK = 131072 ∧
    readValueAt blocks shape coord =
      (match (blocks
          ((((List.range coord.length).map
              fun k => coord.getD k 0 * (shape.drop (k + 1)).prod).sum) / 131072)).get?
          ((((List.range coord.length).map
              fun k => coord.getD k 0 * (shape.drop (k + 1)).prod).sum) % 131072) with
        | some v => Except.ok v
        | none => Except.error TCErrorKind.internalErr) := by
  refine ⟨rfl, ?_⟩
  have hlen : coord.length = shape.length := by
    have h1 := (Bool.and_eq_true _ _).mp h
    exact of_decide_eq_true h1.1
  unfold readValueAt
  rw [if_neg (by simp [h]), offsetOf_eq_spec_sum coord shape hlen]
  simp only [PER_BLOCK]
  cases h9 : (blocks
      ((List.map (fun k => List.getD coord k 0 * (List.drop (k + 1) shape).prod)
          (List.range (List.length coord))).sum / 131072)).get?
      ((List.map (fun k => List.getD coord k 0 * (List.drop (k + 1) shape).prod)
          (List.range (List.length coord))).sum % 131072) <;> rfl

/-- C7 witness: in shape `[2, 3]`, the coordinate `[1, 2]` has offset
`1·3 + 2·1 = 5`, which lands in block 0 at index 5, holding the value 15. -/
theorem readValueAt_block_decomposition_witness :
    containsCoord [2, 3] [1, 2] = true ∧
    readValueAt (fun _ => [10, 11, 12, 13, 14, 15]) [2, 3] [1, 2] = Except.ok (15 : Int) := by
  refine ⟨by decide, ?_⟩
  have h := readValueAt_block_decomposition (fun _ => [10, 11, 12, 13, 14, 15]) [2, 3] [1, 2]
    (by decide)
  rw [h.2]
  rfl

/-- C8 counterexample: a schema with a string column is rejected by
`Collator::new` with `BadRequest` — strings are not in the supported set. -/
theorem collator_rejects_strings :
    Collator.new [TCType.stringT] = Except.error TCErrorKind.badRequest := rfl

/-- C8 (amended): `Collator::new` succeeds exactly when every column type is
`Int32` or `UInt64`; any other column type — including strings — is
rejected with `BadRequest`. -/
theorem collator_new_exact_support (schema : List TCType) :
    (Collator.new schema = Except.ok ⟨schema⟩ ∧
      ∀ t ∈ schema, t = TCType.int32 ∨ t = TCType.uint64) ∨
    (Collator.new schema = Except.error TCErrorKind.badRequest ∧
      ∃ t ∈ schema, ¬(t = TCType.int32 ∨ t = TCType.uint64)) := by
  by_cases h : schema.all Collator.supports
  · left
    refine ⟨by simp [Collator.new, h], ?_⟩
    intro t ht
    have hs := List.all_eq_true.mp h t ht
    cases t <;> simp_all [Collator.supports]
  · right
    refine ⟨by simp [Collator.new, h], ?_⟩
    rw [List.all_eq_true] at h
    push_neg at h
    obtain ⟨t, ht, hs⟩ := h
    refine ⟨t, ht, ?_⟩
    cases t <;> simp_all [Collator.supports]

/-- C10: `Transpose::new` with no permutation defaults to the reversed axis
order `(ndim-1, ..., 1, 0)`, and the resulting view shape is the source
shape reversed. -/
theorem transpose_default_reverses (sourceShape : Shape) :
    Transpose.new sourceShape none =
      Except.ok ⟨sourceShape, sourceShape.reverse, (List.range sourceShape.length).reverse⟩ := by
  unfold Transpose.new
  rw [if_neg (by simp)]
  have hmap : ((List.range sourceShape.length).reverse).map (fun axis => sourceShape.getD axis 0) =
      sourceShape.reverse := by
    rw [List.map_reverse, rangeMap_getD]
  simp only [Option.getD_none, hmap]
